import Mathlib

set_option maxRecDepth 4000

/-!
Verification development for the expdespy repository.

We give a shallow embedding of the algorithmic core of the library:
the compact-letter-display assignment (`assign_letters` in
`src/expdespy/utils/utils.py`), the significance-marker classifier
(`significance_marker` in `src/expdespy/models/base.py` and the variant in
`fatorial_base.py`/`splitplot_base.py`), the interaction-unfolding dispatch
(`unfold_interactions` in `fatorial_base.py` and `splitplot_base.py`),
the Tukey post-hoc wrapper (`TukeyHSD.run` in `posthoc/tukey_test.py`)
and the dataset-ownership behaviour of the design-model constructors.

p-values are embedded as rationals; a possibly-undefined (NaN) p-value is
`Option ℚ` with `none` playing the role of NaN (any `<`/`≤` comparison
against NaN is false, as for Python floats).  External statistics
(OLS fits, ANOVA tables, the studentized-range procedure) are parameters
of the embedded functions, mirroring the spec, which treats them as
external collaborators.
-/

/-- One record of a pairwise comparison set: columns `G1`, `G2` and the
p-value column of `df_post_hoc` in `assign_letters`. -/
structure Comparison where
  g1 : String
  g2 : String
  p : ℚ
deriving DecidableEq

/-- The row filter used by `is_significant` in `assign_letters`:
`((df[G1] == lv1) & (df[G2] == lv2)) | ((df[G1] == lv2) & (df[G2] == lv1))`. -/
def matchesPair (r : Comparison) (a b : String) : Bool :=
  (r.g1 == a && r.g2 == b) || (r.g1 == b && r.g2 == a)

/-- `is_significant` from `utils.py`: select the rows matching the pair in
either order; the lookup is `not match.empty and match.iloc[0] < alpha`,
i.e. false on an empty match and otherwise a strict comparison of the
first matching row's p-value against alpha. -/
def is_significant (cs : List Comparison) (lv1 lv2 : String) (alpha : ℚ) : Bool :=
  match (cs.filter (fun r => matchesPair r lv1 lv2)).map (fun r => r.p) with
  | [] => false
  | p :: _ => decide (p < alpha)

/-- Python `set.add`: idempotent insertion (sets are embedded as lists,
all observations of them in the source are membership / set-equality). -/
def pyInsert (x : String) (s : List String) : List String :=
  if x ∈ s then s else x :: s

/-- The inner loop of `assign_letters` building `draft[i]` for the group
`l1 = order[i]`: iterate `for l2 in order`, adding `l2` when
`l1 != l2 and not any([is_significant(l1, l2), *[is_significant(l_, l2) for l_ in draft[i]]])`. -/
def buildSet (cs : List Comparison) (alpha : ℚ) (order : List String) (l1 : String) :
    List String :=
  order.foldl
    (fun s l2 =>
      if l1 != l2 && !(is_significant cs l1 l2 alpha
          || s.any (fun x => is_significant cs x l2 alpha))
      then pyInsert l2 s else s)
    [l1]

/-- Python set equality between two list-embedded sets. -/
def setEqv (s t : List String) : Bool :=
  s.all (fun x => x ∈ t) && t.all (fun x => x ∈ s)

/-- `[sets.append(s) for s in draft.values() if s not in sets]`: keep each
distinct compatibility set once, in first-seen order (`in` on Python sets
is set equality). -/
def dedupSets (l : List (List String)) : List (List String) :=
  l.foldl (fun acc s => if acc.any (setEqv s) then acc else acc ++ [s]) []

/-- `string.ascii_lowercase` as a list of characters. -/
def asciiLowercase : List Char :=
  ['a', 'b', 'c', 'd', 'e', 'f', 'g', 'h', 'i', 'j', 'k', 'l', 'm',
   'n', 'o', 'p', 'q', 'r', 's', 't', 'u', 'v', 'w', 'x', 'y', 'z']

/-- `letters[j]`: indexing into the 26-letter alphabet; `none` embeds the
Python `IndexError` raised past index 25. -/
def letterAt (j : Nat) : Option Char :=
  asciiLowercase[j]?

/-- The comprehension `[letters[j] for j, s in enumerate(sets) if lt in s]`,
carrying the running index `j`; an out-of-alphabet index makes the whole
computation fail, as the Python list comprehension would. -/
def lettersForAux (g : String) (j : Nat) : List (List String) → Option (List Char)
  | [] => some []
  | s :: rest =>
    if g ∈ s then
      match letterAt j, lettersForAux g (j + 1) rest with
      | some c, some cs => some (c :: cs)
      | _, _ => none
    else lettersForAux g (j + 1) rest

/-- `''.join([letters[j] for j, s in enumerate(sets) if lt in s])`. -/
def lettersFor (sets : List (List String)) (g : String) : Option String :=
  (lettersForAux g 0 sets).map String.mk

/-- Sequence a list of fallible computations (the embedding of a loop whose
body may raise): `some` of all results, or `none` if any step fails. -/
def optionMapAll (f : α → Option β) : List α → Option (List β)
  | [] => some []
  | a :: l =>
    match f a, optionMapAll f l with
    | some b, some bs => some (b :: bs)
    | _, _ => none

/-- `assign_letters` from `utils.py`, for an explicitly given `order` list
(the `order : List` branch of the Python function): build `draft[i]` for
every position, deduplicate into `sets`, then emit one `(Group, Letters)`
row per group in order.  `none` embeds an `IndexError` escaping the final
letter-assignment loop. -/
def assign_letters (cs : List Comparison) (alpha : ℚ) (order : List String) :
    Option (List (String × String)) :=
  let sets := dedupSets (order.map (buildSet cs alpha order))
  optionMapAll (fun g => (lettersFor sets g).map (fun s => (g, s))) order

/-- A p-value that may be NaN (`none`). -/
abbrev PVal := Option ℚ

/-- Float `<` against a constant: false when the left side is NaN. -/
def pLtB (p : PVal) (a : ℚ) : Bool :=
  match p with
  | none => false
  | some q => decide (q < a)

/-- Float `<=` against a constant: false when the left side is NaN. -/
def pLeB (p : PVal) (a : ℚ) : Bool :=
  match p with
  | none => false
  | some q => decide (q ≤ a)

/-- `np.isnan`. -/
def isNaN (p : PVal) : Bool :=
  match p with
  | none => true
  | some _ => false

/-- `significance_marker` from `models/base.py`: the NaN test comes fourth
in the source, after the three strict threshold tests. -/
def significance_marker (p : PVal) : String :=
  if pLtB p (1/1000) then "***"
  else if pLtB p (1/100) then "**"
  else if pLtB p (1/20) then "*"
  else if isNaN p then " "
  else "ns"

/-- The `significance_marker` variant in `fatorial_base.py` /
`splitplot_base.py`: identical except that NaN maps to the empty string. -/
def significance_marker_unfold (p : PVal) : String :=
  if pLtB p (1/1000) then "***"
  else if pLtB p (1/100) then "**"
  else if pLtB p (1/20) then "*"
  else if isNaN p then ""
  else "ns"

/-- The classifier as worded by the spec (rules checked in order, NaN
first), used to compare against the source order of checks. -/
def classifySpec (blank : String) (p : PVal) : String :=
  if isNaN p then blank
  else if pLtB p (1/1000) then "***"
  else if pLtB p (1/100) then "**"
  else if pLtB p (1/20) then "*"
  else "ns"

/-- A dataset row: column name to cell value (cells kept as strings; only
the factor columns are inspected by the unfolding dispatch). -/
abbrev Row := List (String × String)

/-- `df[col]` for one row. -/
def colVal (r : Row) (c : String) : String :=
  (r.lookup c).getD ""

/-- `Series.unique()`: distinct values in first-appearance order. -/
def pyUniqueAux (seen : List String) : List String → List String
  | [] => []
  | x :: xs => if x ∈ seen then pyUniqueAux seen xs else x :: pyUniqueAux (x :: seen) xs

/-- `Series.unique()` applied to a column. -/
def pyUnique (l : List String) : List String := pyUniqueAux [] l

/-- Python string ordering (lexicographic on code points). -/
def charListLe : List Char → List Char → Bool
  | [], _ => true
  | _ :: _, [] => false
  | a :: as, b :: bs =>
    if a.toNat < b.toNat then true
    else if b.toNat < a.toNat then false
    else charListLe as bs

/-- Python string `<=`. -/
def strLeB (a b : String) : Bool := charListLe a.data b.data

/-- Insertion step of `sorted`. -/
def insertSorted (x : String) : List String → List String
  | [] => [x]
  | y :: ys => if strLeB x y then x :: y :: ys else y :: insertSorted x ys

/-- Python `sorted` on a list of strings. -/
def sortStrings : List String → List String
  | [] => []
  | x :: xs => insertSorted x (sortStrings xs)

/-- `sorted(self.data[c].unique())`. -/
def sortedLevels (data : List Row) (c : String) : List String :=
  sortStrings (pyUnique (data.map (fun r => colVal r c)))

/-- `Series.nunique()` for a column of a (possibly filtered) dataset. -/
def nuniqueCol (data : List Row) (c : String) : Nat :=
  (pyUnique (data.map (fun r => colVal r c))).length

/-- Split a character list at every occurrence of a separator character
(Python `str.split` with a one-character separator). -/
def splitOnChar (c : Char) : List Char → List (List Char)
  | [] => [[]]
  | x :: xs =>
    match splitOnChar c xs with
    | [] => [[]]
    | g :: gs => if x = c then [] :: g :: gs else (x :: g) :: gs

/-- Python `str.strip(c)`: drop the character from both ends. -/
def stripChar (c : Char) (l : List Char) : List Char :=
  (((l.dropWhile (fun x => x = c)).reverse.dropWhile (fun x => x = c)).reverse)

/-- `[f.split("(")[1].strip(")") for f in term.split(":")]`, extracting the
factor names from an interaction term such as `C(A):C(B)` (the Python
index `[1]` always exists for terms produced by `run_anova`; we default to
the empty chunk). -/
def factorsOfTerm (term : String) : List String :=
  (splitOnChar ':' term.data).map
    (fun f => String.mk (stripChar ')' (((splitOnChar '(' f).getD 1 []))))

/-- `":" in term`. -/
def isInteractionTerm (t : String) : Bool := t.data.contains ':'

/-- `[term for term in anova_table.index if ":" in term and anova_table.loc[term, "PR(>F)"] <= alpha]`
(a NaN p-value compares false, hence counts as not significant). -/
def significantInteractions (anovaT : List (String × PVal)) (alpha : ℚ) : List String :=
  (anovaT.filter (fun t => isInteractionTerm t.1 && pLeB t.2 alpha)).map (fun t => t.1)

/-- Inputs of `FactorialDesign.unfold_interactions` as far as the dispatch
is concerned: the fitted ANOVA table (from `run_anova`), the sanitized
factor list, the dataset, and the outcome of the per-branch external work —
`mainOut f` is the post-hoc + CLD pipeline for one factor in the
main-effects loop, `subOut f1 f2 level` the OLS refit + post-hoc pipeline
for one subset branch; `Except.error e` embeds a raised exception whose
string form is `e`. -/
structure FatEnv (μ σ : Type) where
  anovaT : List (String × PVal)
  factors : List String
  data : List Row
  mainOut : String → Except String μ
  subOut : String → String → String → Except String σ

/-- The dictionary returned by `unfold_interactions` (insertion-ordered
association lists embed the Python dicts). -/
structure UnfoldResult (μ σ : Type) where
  anovaT : List (String × PVal)
  main_effects : List (String × μ)
  interactions : List (String × σ)
deriving DecidableEq

/-- The error line printed in the main-effects loop of the factorial
version: `f"Error applying post hoc ({posthoc}) to {factor}: {e}"`. -/
def fatMainErrMsg (ph f e : String) : String :=
  "Error applying post hoc (" ++ ph ++ ") to " ++ f ++ ": " ++ e

/-- The error line printed in the main-effects loop of the split-plot
version: `f"Error applying post hoc for {factor}: {e}"`. -/
def spMainErrMsg (f e : String) : String :=
  "Error applying post hoc for " ++ f ++ ": " ++ e

/-- The main-effects loop shared by both versions: for each factor run the
post-hoc pipeline; a success is recorded under the factor key, an
exception is caught and printed (only when `print_results`) via the given
message builder.  Returns the `main_effects` dict and the error log. -/
def mainLoopAux (pr : Bool) (errMsgOf : String → String → String)
    (mainOut : String → Except String μ)
    (acc : List (String × μ) × List String) :
    List String → List (String × μ) × List String
  | [] => acc
  | f :: rest =>
    match mainOut f with
    | .ok out => mainLoopAux pr errMsgOf mainOut (acc.1 ++ [(f, out)], acc.2) rest
    | .error e =>
      mainLoopAux pr errMsgOf mainOut
        (acc.1, acc.2 ++ if pr then [errMsgOf f e] else []) rest

/-- The main-effects loop shared by both versions (see `mainLoopAux`). -/
def mainLoop (pr : Bool) (errMsgOf : String → String → String)
    (mainOut : String → Except String μ) (factors : List String) :
    List (String × μ) × List String :=
  mainLoopAux pr errMsgOf mainOut ([], []) factors

/-- `f"{f1} within {f2}={level}"`. -/
def mkKey (f1 f2 level : String) : String :=
  f1 ++ " within " ++ f2 ++ "=" ++ level

/-- `f"Error unfolding {f1} within {f2}={level}: {e}"`. -/
def interErrMsg (f1 f2 level e : String) : String :=
  "Error unfolding " ++ mkKey f1 f2 level ++ ": " ++ e

/-- Python dict assignment `d[k] = v`: overwrite in place if the key
exists, else append. -/
def dictInsert (l : List (String × σ)) (k : String) (v : σ) : List (String × σ) :=
  if l.any (fun p => p.1 == k) then
    l.map (fun p => if p.1 == k then (k, v) else p)
  else l ++ [(k, v)]

/-- The `(f1, f2, level)` triples visited by the factorial interaction
loops, in source order: `for term in significant_interactions`, factors of
the term, `for f1 in factors`, `others = [f for f in factors if f != f1]`,
`for f2 in others`, `for level in sorted(self.data[f2].unique())`. -/
def branchTriples (sig : List String) (data : List Row) :
    List (String × String × String) :=
  sig.flatMap (fun term =>
    let fs := factorsOfTerm term
    fs.flatMap (fun f1 =>
      (fs.filter (fun f => f ≠ f1)).flatMap (fun f2 =>
        (sortedLevels data f2).map (fun level => (f1, f2, level)))))

/-- The insufficient-data guard `subset[f1].nunique() <= 1` negated: the
branch is processed only when the filtered subset keeps at least two
distinct levels of the inner factor. -/
def guardPass (data : List Row) (t : String × String × String) : Bool :=
  decide (1 < nuniqueCol (data.filter (fun r => colVal r t.2.1 == t.2.2)) t.1)

/-- The factorial interaction loop over the branch triples: filter the
dataset to `f2 == level`, skip silently when the guard fails, otherwise
record the sub-analysis under its key or catch-and-print the exception. -/
def interLoopAux (pr : Bool)
    (subOut : String → String → String → Except String σ) (data : List Row)
    (acc : List (String × σ) × List String) :
    List (String × String × String) → List (String × σ) × List String
  | [] => acc
  | t :: rest =>
    if nuniqueCol (data.filter (fun r => colVal r t.2.1 == t.2.2)) t.1 ≤ 1 then
      interLoopAux pr subOut data acc rest
    else
      match subOut t.1 t.2.1 t.2.2 with
      | .ok out =>
        interLoopAux pr subOut data
          (dictInsert acc.1 (mkKey t.1 t.2.1 t.2.2) out, acc.2) rest
      | .error e =>
        interLoopAux pr subOut data
          (acc.1, acc.2 ++ if pr then [interErrMsg t.1 t.2.1 t.2.2 e] else []) rest

/-- The factorial interaction loop over its branch triples (see
`interLoopAux`). -/
def interLoop (pr : Bool) (subOut : String → String → String → Except String σ)
    (data : List Row) (trips : List (String × String × String)) :
    List (String × σ) × List String :=
  interLoopAux pr subOut data ([], []) trips

/-- `FactorialDesign.unfold_interactions`: build the result skeleton, list
the significant interaction terms, and take the main-effects branch when
that list is empty, the unfolding branch otherwise.  Returns the result
dict together with the printed error log. -/
def unfold_interactions (env : FatEnv μ σ) (alpha : ℚ) (pr : Bool) (ph : String) :
    UnfoldResult μ σ × List String :=
  let sig := significantInteractions env.anovaT alpha
  if sig.isEmpty then
    let ml := mainLoop pr (fatMainErrMsg ph) env.mainOut env.factors
    ({ anovaT := env.anovaT, main_effects := ml.1, interactions := [] }, ml.2)
  else
    let il := interLoop pr env.subOut env.data (branchTriples sig env.data)
    ({ anovaT := env.anovaT, main_effects := [], interactions := il.1 }, il.2)

/-- Inputs of `SplitPlotDesign.unfold_interactions`: ANOVA table, the two
factor names, the dataset, and the external per-branch outcomes (the
unfolding loop runs the subplot analysis once per main-plot level). -/
structure SpEnv (μ σ : Type) where
  anovaT : List (String × PVal)
  main_plot : String
  subplot : String
  data : List Row
  mainOut : String → Except String μ
  subOut : String → Except String σ

/-- The split-plot interaction loop.  The local variable `key` is assigned
inside the `try` block only after the sub-analysis succeeds, yet the
`except` handler prints `f"Error unfolding {key}: {e}"`: if the first
branch fails while `print_results` is on, `key` is still unbound and the
handler itself raises `NameError`, which propagates out of
`unfold_interactions` (embedded as the `.error` outcome); on later
branches the handler reports the key of the last successful branch. -/
def spInterAux (pr : Bool) (subOut : String → Except String σ)
    (keyOf : String → String) :
    List String → List (String × σ) × List String → Option String →
    Except String (List (String × σ) × List String)
  | [], acc, _ => .ok acc
  | level :: rest, acc, lastKey =>
    match subOut level with
    | .ok out =>
      let k := keyOf level
      spInterAux pr subOut keyOf rest (dictInsert acc.1 k out, acc.2) (some k)
    | .error e =>
      if pr then
        match lastKey with
        | none => .error "NameError: name key is not defined"
        | some k =>
          spInterAux pr subOut keyOf rest
            (acc.1, acc.2 ++ ["Error unfolding " ++ k ++ ": " ++ e]) (some k)
      else spInterAux pr subOut keyOf rest acc lastKey

/-- `SplitPlotDesign.unfold_interactions`: same dispatch as the factorial
version; the unfolding branch iterates `sorted(self.data[self.main_plot].unique())`
and unfolds the subplot within each main-plot level.  The `.error` outcome
embeds an exception escaping the method (see `spInterAux`). -/
def sp_unfold (env : SpEnv μ σ) (alpha : ℚ) (pr : Bool) :
    Except String (UnfoldResult μ σ × List String) :=
  let sig := significantInteractions env.anovaT alpha
  if sig.isEmpty then
    let ml := mainLoop pr spMainErrMsg env.mainOut [env.main_plot, env.subplot]
    .ok ({ anovaT := env.anovaT, main_effects := ml.1, interactions := [] }, ml.2)
  else
    (spInterAux pr env.subOut
        (fun level => env.subplot ++ " within " ++ env.main_plot ++ "=" ++ level)
        (sortedLevels env.data env.main_plot) ([], []) none).map
      (fun acc =>
        ({ anovaT := env.anovaT, main_effects := [], interactions := acc.1 }, acc.2))

/-- The column labels `TukeyHSD.run` assigns to its result frame. -/
def tukeyColumns : List String :=
  ["group1", "group2", "meandiff", "p-adj", "lower", "upper", "reject"]

/-- `TukeyHSD.run` from `posthoc/tukey_test.py`: pass the response column
and the group column (coerced to strings) to the external
`pairwise_tukeyhsd`, wrap its summary rows into a frame and relabel the
columns.  The external procedure is a parameter `ext`; `.error` embeds an
exception it raises.  The method performs no validation of its own. -/
def tukey_run (ext : List String → List String → Except String (List (List String)))
    (data : List Row) (vcol gcol : String) :
    Except String (List String × List (List String)) :=
  match ext (data.map (fun r => colVal r vcol)) (data.map (fun r => colVal r gcol)) with
  | .ok rows => .ok (tukeyColumns, rows)
  | .error e => .error e

/-- Number of observations of one group in the dataset handed to the
post-hoc strategy. -/
def groupCount (data : List Row) (gcol g : String) : Nat :=
  (data.filter (fun r => colVal r gcol == g)).length

/-- A DataFrame reduced to what the construction-time sanitization can
touch: its list of column names. -/
abbrev DFrame := List String

/-- The caller-visible object store: design-model constructors receive a
reference into it, so aliasing between the instance dataset and the
caller's dataset is observable. -/
abbrev Heap := List DFrame

/-- Dereference (an invalid reference yields the empty frame). -/
def heapGet (h : Heap) (r : Nat) : DFrame :=
  h.getD r []

/-- In-place update of the referenced frame (`DataFrame.rename(inplace=True)`). -/
def heapSet (h : Heap) (r : Nat) (df : DFrame) : Heap :=
  h.set r df

/-- `df.rename(columns={old: new}, inplace=True)` on the column list. -/
def renameCol (df : DFrame) (old new : String) : DFrame :=
  df.map (fun c => if c = old then new else c)

/-- `ExperimentalDesign.__init__` (`models/base.py`): `self.data = data` —
the instance stores the caller's reference, no copy is made.  `CRD`,
`DBC` and `DQL` all construct through it unchanged. -/
def experimentalDesign_init (h : Heap) (dataRef : Nat) : Heap × Nat :=
  (h, dataRef)

/-- `FactorialDesign._safe_factor`: rename the column on the instance
frame only when the name is reserved (`{"C"}`) and actually a column. -/
def factorial_safe_factor (h : Heap) (selfRef : Nat) (f : String) : Heap × String :=
  if f = "C" ∧ f ∈ heapGet h selfRef then
    (heapSet h selfRef (renameCol (heapGet h selfRef) f (f ++ "_")), f ++ "_")
  else (h, f)

/-- `FactorialDesign.__init__`: `self.data = data.copy()` allocates a
fresh frame, then every factor name is sanitized against that copy. -/
def factorial_init (h : Heap) (dataRef : Nat) (factors : List String) :
    Heap × Nat × List String :=
  let selfRef := h.length
  let h1 := h ++ [heapGet h dataRef]
  let step := factors.foldl
    (fun (acc : Heap × List String) f =>
      ((factorial_safe_factor acc.1 selfRef f).1,
       acc.2 ++ [(factorial_safe_factor acc.1 selfRef f).2])) (h1, [])
  (step.1, selfRef, step.2)

/-- `SplitPlotDesign._safe_factor`: reserved names `C`, `T`, `I` map to
`C_`, `T_`, `I_`; the rename happens only if the name is a column, but the
safe name is returned regardless; the empty name is passed through. -/
def splitplot_safe_factor (h : Heap) (selfRef : Nat) (f : String) : Heap × String :=
  if f = "" then (h, f)
  else
    match [("C", "C_"), ("T", "T_"), ("I", "I_")].lookup f with
    | some safe =>
      (if f ∈ heapGet h selfRef then
        heapSet h selfRef (renameCol (heapGet h selfRef) f safe)
      else h, safe)
    | none => (h, f)

/-- `SplitPlotDesign.__init__`: `self.data = data.copy()`, then the
main-plot, subplot and (when truthy) block names are sanitized against the
copy. -/
def splitplot_init (h : Heap) (dataRef : Nat) (mainP subP : String)
    (block : Option String) : Heap × Nat × String × String × Option String :=
  let selfRef := h.length
  let h1 := h ++ [heapGet h dataRef]
  let m := splitplot_safe_factor h1 selfRef mainP
  let s := splitplot_safe_factor m.1 selfRef subP
  match block with
  | some bl =>
    if bl = "" then (s.1, selfRef, m.2, s.2, none)
    else
      let b := splitplot_safe_factor s.1 selfRef bl
      (b.1, selfRef, m.2, s.2, some b.2)
  | none => (s.1, selfRef, m.2, s.2, none)

/-- `Except.isOk` spelled out (used to separate succeeded branches). -/
def exceptIsOk : Except ε α → Bool
  | .ok _ => true
  | .error _ => false

/-- The comparison row filter is symmetric in the two group labels, as the
source selects `(G1 == lv1 and G2 == lv2) or (G1 == lv2 and G2 == lv1)`. -/
theorem matchesPair_symm (r : Comparison) (a b : String) :
    matchesPair r a b = matchesPair r b a := by
  unfold matchesPair
  exact Bool.or_comm _ _

/-- `is_significant` is symmetric: the row lookup matches the same rows
in the same order regardless of argument order. -/
theorem is_significant_symm (cs : List Comparison) (a b : String) (alpha : ℚ) :
    is_significant cs a b alpha = is_significant cs b a alpha := by
  unfold is_significant
  rw [List.filter_congr (fun r _ => matchesPair_symm r a b)]

/-- Membership in the embedded Python set insertion. -/
theorem mem_pyInsert (a x : String) (s : List String) :
    a ∈ pyInsert x s ↔ a = x ∨ a ∈ s := by
  unfold pyInsert
  split
  · rename_i hx
    constructor
    · exact Or.inr
    · rintro (rfl | ha)
      · exact hx
      · exact ha
  · exact List.mem_cons

/-- A foldl whose step never removes elements preserves membership. -/
theorem foldl_preserves_mem {f : List String → String → List String}
    (hf : ∀ s a y, y ∈ s → y ∈ f s a) :
    ∀ (l : List String) (s : List String) (y : String), y ∈ s → y ∈ List.foldl f s l := by
  intro l
  induction l with
  | nil => intro s y hy; exact hy
  | cons a l ih => intro s y hy; exact ih (f s a) y (hf s a y hy)

/-- The starting group is always a member of its compatibility set. -/
theorem seed_mem_buildSet (cs : List Comparison) (alpha : ℚ) (order : List String)
    (l1 : String) : l1 ∈ buildSet cs alpha order l1 := by
  unfold buildSet
  apply foldl_preserves_mem
  · intro s a y hy
    split
    · exact (mem_pyInsert y a s).mpr (Or.inr hy)
    · exact hy
  · exact List.mem_singleton.mpr rfl

/-- Mutual compatibility: no two distinct members of the set test as
significantly different. -/
def pairwiseCompat (cs : List Comparison) (alpha : ℚ) (s : List String) : Prop :=
  ∀ a ∈ s, ∀ b ∈ s, a ≠ b → is_significant cs a b alpha = false

/-- The greedy extension of `assign_letters` only ever adds a candidate
that is not significantly different from every current member, so the
built compatibility set is mutually compatible throughout. -/
theorem buildSet_pairwiseCompat (cs : List Comparison) (alpha : ℚ)
    (order : List String) (l1 : String) :
    pairwiseCompat cs alpha (buildSet cs alpha order l1) := by
  unfold buildSet
  have step : ∀ (l : List String) (s : List String), pairwiseCompat cs alpha s →
      pairwiseCompat cs alpha (List.foldl
        (fun s l2 =>
          if l1 != l2 && !(is_significant cs l1 l2 alpha
              || s.any (fun x => is_significant cs x l2 alpha))
          then pyInsert l2 s else s) s l) := by
    intro l
    induction l with
    | nil => intro s hs; exact hs
    | cons l2 rest ih =>
      intro s hs
      rw [List.foldl_cons]
      apply ih
      split
      · rename_i hcond
        have hany : s.any (fun x => is_significant cs x l2 alpha) = false := by
          simp only [Bool.and_eq_true, Bool.not_eq_true', Bool.or_eq_false_iff] at hcond
          exact hcond.2.2
        have hmem : ∀ x ∈ s, is_significant cs x l2 alpha = false := by
          intro x hx
          by_contra hxs
          have hx2 : is_significant cs x l2 alpha = true := by
            cases h : is_significant cs x l2 alpha
            · exact absurd h hxs
            · rfl
          have hthis : s.any (fun x => is_significant cs x l2 alpha) = true :=
            List.any_eq_true.mpr ⟨x, hx, hx2⟩
          rw [hthis] at hany
          exact Bool.noConfusion hany
        intro a ha b hb hab
        rcases (mem_pyInsert a l2 s).mp ha with haeq | ha2
        · rcases (mem_pyInsert b l2 s).mp hb with hbeq | hb2
          · exact absurd (haeq.trans hbeq.symm) hab
          · rw [haeq, is_significant_symm]
            exact hmem b hb2
        · rcases (mem_pyInsert b l2 s).mp hb with hbeq | hb2
          · rw [hbeq]
            exact hmem a ha2
          · exact hs a ha2 b hb2 hab
      · exact hs
  apply step
  intro a ha b hb hab
  rw [List.mem_singleton.mp ha, List.mem_singleton.mp hb] at hab
  exact absurd rfl hab

/-- Every set surviving deduplication is one of the built draft sets. -/
theorem mem_dedupSets (l : List (List String)) (s : List String)
    (hs : s ∈ dedupSets l) : s ∈ l := by
  unfold dedupSets at hs
  have aux : ∀ (l : List (List String)) (acc : List (List String)) (s : List String),
      s ∈ List.foldl (fun acc s => if acc.any (setEqv s) then acc else acc ++ [s]) acc l →
      s ∈ acc ∨ s ∈ l := by
    intro l
    induction l with
    | nil => intro acc s h; exact Or.inl h
    | cons t rest ih =>
      intro acc s h
      rw [List.foldl_cons] at h
      by_cases hb : acc.any (setEqv t) = true
      · rw [if_pos hb] at h
        rcases ih acc s h with hacc | hrest
        · exact Or.inl hacc
        · exact Or.inr (List.mem_cons.mpr (Or.inr hrest))
      · rw [if_neg hb] at h
        rcases ih (acc ++ [t]) s h with hacc | hrest
        · rcases List.mem_append.mp hacc with h1 | h2
          · exact Or.inl h1
          · exact Or.inr (List.mem_cons.mpr (Or.inl (List.mem_singleton.mp h2)))
        · exact Or.inr (List.mem_cons.mpr (Or.inr hrest))
  rcases aux l [] s hs with h | h
  · exact absurd h (List.not_mem_nil s)
  · exact h

/-- Indexing past the end of the alphabet fails. -/
theorem letterAt_ge (j : Nat) (hj : 26 ≤ j) : letterAt j = none := by
  unfold letterAt
  apply List.getElem?_eq_none
  calc asciiLowercase.length = 26 := by decide
  _ ≤ j := hj

/-- A successful alphabet lookup has an in-range index. -/
theorem letterAt_lt (j : Nat) (c : Char) (h : letterAt j = some c) : j < 26 := by
  by_contra hge
  rw [letterAt_ge j (Nat.le_of_not_lt hge)] at h
  exact Option.noConfusion h

/-- Distinct alphabet positions yield distinct letters. -/
theorem letterAt_inj : ∀ j1 < 26, ∀ j2 < 26, letterAt j1 = letterAt j2 → j1 = j2 := by
  decide

/-- Each character of a produced letter string is the letter of a set that
contains the group, at the right running index. -/
theorem lettersForAux_mem_char (g : String) (c : Char) :
    ∀ (sets : List (List String)) (j : Nat) (out : List Char),
      lettersForAux g j sets = some out → c ∈ out →
      ∃ k, ∃ hk : k < sets.length, g ∈ sets.get ⟨k, hk⟩ ∧ letterAt (j + k) = some c := by
  intro sets
  induction sets with
  | nil =>
    intro j out h hc
    have hout : out = [] := by
      simpa [lettersForAux] using h.symm
    rw [hout] at hc
    exact absurd hc (List.not_mem_nil c)
  | cons s rest ih =>
    intro j out h hc
    unfold lettersForAux at h
    by_cases hg : g ∈ s
    · rw [if_pos hg] at h
      cases hl : letterAt j with
      | none => rw [hl] at h; exact Option.noConfusion h
      | some c0 =>
        rw [hl] at h
        cases hrest : lettersForAux g (j + 1) rest with
        | none => rw [hrest] at h; exact Option.noConfusion h
        | some cs =>
          rw [hrest] at h
          have hout : out = c0 :: cs := (Option.some.injEq .. |>.mp h).symm
          rw [hout] at hc
          rcases List.mem_cons.mp hc with rfl | hcs
          · exact ⟨0, Nat.succ_pos _, hg, by rw [Nat.add_zero]; exact hl⟩
          · rcases ih (j + 1) cs hrest hcs with ⟨k, hk, hgk, hlk⟩
            refine ⟨k + 1, Nat.succ_lt_succ hk, hgk, ?_⟩
            rw [show j + (k + 1) = j + 1 + k by omega]
            exact hlk
    · rw [if_neg hg] at h
      rcases ih (j + 1) out h hc with ⟨k, hk, hgk, hlk⟩
      refine ⟨k + 1, Nat.succ_lt_succ hk, hgk, ?_⟩
      rw [show j + (k + 1) = j + 1 + k by omega]
      exact hlk

/-- If the group lies in a set whose running letter index is out of range,
the whole letter computation fails. -/
theorem lettersForAux_none (g : String) :
    ∀ (sets : List (List String)) (j : Nat) (k : Nat) (hk : k < sets.length),
      g ∈ sets.get ⟨k, hk⟩ → letterAt (j + k) = none →
      lettersForAux g j sets = none := by
  intro sets
  induction sets with
  | nil => intro j k hk; exact absurd hk (Nat.not_lt_zero k)
  | cons s rest ih =>
    intro j k hk hg hnone
    unfold lettersForAux
    cases k with
    | zero =>
      have hg0 : g ∈ s := hg
      rw [Nat.add_zero] at hnone
      rw [if_pos hg0, hnone]
    | succ k0 =>
      have hg0 : g ∈ rest.get ⟨k0, Nat.lt_of_succ_lt_succ hk⟩ := hg
      have hrest : lettersForAux g (j + 1) rest = none := by
        apply ih (j + 1) k0 (Nat.lt_of_succ_lt_succ hk) hg0
        rw [show j + 1 + k0 = j + (k0 + 1) by omega]
        exact hnone
      by_cases hgs : g ∈ s
      · rw [if_pos hgs, hrest]
        cases letterAt j <;> rfl
      · rw [if_neg hgs]
        exact hrest

/-- When the whole run of indices stays inside the alphabet the letter
computation succeeds. -/
theorem lettersForAux_some (g : String) :
    ∀ (sets : List (List String)) (j : Nat), j + sets.length ≤ 26 →
      (lettersForAux g j sets).isSome := by
  intro sets
  induction sets with
  | nil => intro j _; rfl
  | cons s rest ih =>
    intro j hj
    have hlen : (s :: rest).length = rest.length + 1 := rfl
    have hjlt : j < 26 := by
      rw [hlen] at hj
      omega
    have hrest : (lettersForAux g (j + 1) rest).isSome := by
      apply ih
      rw [hlen] at hj
      omega
    unfold lettersForAux
    by_cases hgs : g ∈ s
    · rw [if_pos hgs]
      have hl : letterAt j = some (asciiLowercase.get ⟨j, by simpa [asciiLowercase] using hjlt⟩) := by
        unfold letterAt
        exact List.getElem?_eq_getElem (by simpa [asciiLowercase] using hjlt)
      rw [hl]
      cases hr : lettersForAux g (j + 1) rest with
      | none => rw [hr] at hrest; exact Bool.noConfusion hrest
      | some cs => rfl
    · rw [if_neg hgs]
      exact hrest

/-- A member of the output of a successful fallible map comes from some
input element. -/
theorem optionMapAll_mem (f : α → Option β) :
    ∀ (l : List α) (res : List β), optionMapAll f l = some res →
      ∀ b ∈ res, ∃ a ∈ l, f a = some b := by
  intro l
  induction l with
  | nil =>
    intro res h b hb
    have hres : res = [] := by
      simpa [optionMapAll] using h.symm
    rw [hres] at hb
    exact absurd hb (List.not_mem_nil b)
  | cons a l ih =>
    intro res h b hb
    unfold optionMapAll at h
    cases hf : f a with
    | none => rw [hf] at h; exact Option.noConfusion h
    | some b0 =>
      rw [hf] at h
      cases hrec : optionMapAll f l with
      | none => rw [hrec] at h; exact Option.noConfusion h
      | some bs =>
        rw [hrec] at h
        have hres : res = b0 :: bs := (Option.some.injEq .. |>.mp h).symm
        rw [hres] at hb
        rcases List.mem_cons.mp hb with rfl | hbs
        · exact ⟨a, List.mem_cons_self a l, hf⟩
        · rcases ih bs hrec b hbs with ⟨a2, ha2, hfa2⟩
          exact ⟨a2, List.mem_cons_of_mem a ha2, hfa2⟩

/-- A fallible map fails as soon as one element fails. -/
theorem optionMapAll_none (f : α → Option β) :
    ∀ (l : List α) (a : α), a ∈ l → f a = none → optionMapAll f l = none := by
  intro l
  induction l with
  | nil => intro a ha; exact absurd ha (List.not_mem_nil a)
  | cons x l ih =>
    intro a ha hfa
    unfold optionMapAll
    rcases List.mem_cons.mp ha with rfl | hal
    · rw [hfa]
    · rw [ih a hal hfa]
      cases f x <;> rfl

/-- A fallible map over pointwise-successful elements succeeds. -/
theorem optionMapAll_some (f : α → Option β) :
    ∀ (l : List α), (∀ a ∈ l, (f a).isSome) → (optionMapAll f l).isSome := by
  intro l
  induction l with
  | nil => intro _; rfl
  | cons x l ih =>
    intro h
    unfold optionMapAll
    cases hx : f x with
    | none =>
      have := h x (List.mem_cons_self x l)
      rw [hx] at this
      exact Bool.noConfusion this
    | some b =>
      have hrec := ih (fun a ha => h a (List.mem_cons_of_mem x ha))
      cases hr : optionMapAll f l with
      | none => rw [hr] at hrec; exact Bool.noConfusion hrec
      | some bs => rfl

/-- Claim C1: CLD soundness. For every pairwise comparison set, alpha and
group order, if two distinct groups of the CLD produced by
`assign_letters` share at least one letter, then every comparison between
them present in the input set (the set holding at most one record per
unordered pair, as the pairwise-comparison data model stores each pair
once) has p-value at least alpha. -/
theorem cld_soundness (cs : List Comparison) (alpha : ℚ) (order : List String)
    (cld : List (String × String)) (g1 g2 s1 s2 : String) (c : Char)
    (hrun : assign_letters cs alpha order = some cld)
    (h1 : (g1, s1) ∈ cld) (h2 : (g2, s2) ∈ cld) (hne : g1 ≠ g2)
    (hc1 : c ∈ s1.data) (hc2 : c ∈ s2.data)
    (huniq : (cs.filter (fun r => matchesPair r g1 g2)).length ≤ 1) :
    ∀ r ∈ cs, matchesPair r g1 g2 = true → alpha ≤ r.p := by
  simp only [assign_letters] at hrun
  set sets := dedupSets (order.map (buildSet cs alpha order)) with hsets
  obtain ⟨a1, ha1o, hf1⟩ := optionMapAll_mem _ order cld hrun (g1, s1) h1
  obtain ⟨a2, ha2o, hf2⟩ := optionMapAll_mem _ order cld hrun (g2, s2) h2
  rcases Option.map_eq_some'.mp hf1 with ⟨t1, hlf1, heq1⟩
  rcases Option.map_eq_some'.mp hf2 with ⟨t2, hlf2, heq2⟩
  have ha1g : a1 = g1 := (Prod.mk.injEq .. |>.mp heq1).1
  have ht1s : t1 = s1 := (Prod.mk.injEq .. |>.mp heq1).2
  have ha2g : a2 = g2 := (Prod.mk.injEq .. |>.mp heq2).1
  have ht2s : t2 = s2 := (Prod.mk.injEq .. |>.mp heq2).2
  rw [ha1g, ht1s] at hlf1
  rw [ha2g, ht2s] at hlf2
  unfold lettersFor at hlf1 hlf2
  rcases Option.map_eq_some'.mp hlf1 with ⟨out1, haux1, hmk1⟩
  rcases Option.map_eq_some'.mp hlf2 with ⟨out2, haux2, hmk2⟩
  have hdata1 : s1.data = out1 := by rw [← hmk1]
  have hdata2 : s2.data = out2 := by rw [← hmk2]
  rw [hdata1] at hc1
  rw [hdata2] at hc2
  obtain ⟨k1, hk1, hgk1, hl1⟩ := lettersForAux_mem_char g1 c sets 0 out1 haux1 hc1
  obtain ⟨k2, hk2, hgk2, hl2⟩ := lettersForAux_mem_char g2 c sets 0 out2 haux2 hc2
  rw [Nat.zero_add] at hl1 hl2
  have hk1lt : k1 < 26 := letterAt_lt _ _ hl1
  have hk2lt : k2 < 26 := letterAt_lt _ _ hl2
  have hkk : k1 = k2 := letterAt_inj k1 hk1lt k2 hk2lt (hl1.trans hl2.symm)
  subst hkk
  have hsmem : sets.get ⟨k1, hk1⟩ ∈ sets := List.get_mem ..
  have hdraft := mem_dedupSets _ _ hsmem
  rcases List.mem_map.mp hdraft with ⟨l0, hl0, hbs⟩
  have hpw := buildSet_pairwiseCompat cs alpha order l0
  rw [hbs] at hpw
  have hsig : is_significant cs g1 g2 alpha = false := hpw g1 hgk1 g2 hgk2 hne
  intro r hr hm
  have hrfil : r ∈ cs.filter (fun r => matchesPair r g1 g2) :=
    List.mem_filter.mpr ⟨hr, hm⟩
  cases hfil : cs.filter (fun r => matchesPair r g1 g2) with
  | nil =>
    rw [hfil] at hrfil
    exact absurd hrfil (List.not_mem_nil r)
  | cons x tl =>
    cases tl with
    | nil =>
      rw [hfil] at hrfil
      have hrx : r = x := List.mem_singleton.mp hrfil
      unfold is_significant at hsig
      rw [hfil] at hsig
      simp only [List.map_cons, List.map_nil] at hsig
      have hnlt : ¬ (x.p < alpha) := by simpa using hsig
      rw [hrx]
      exact le_of_not_lt hnlt
    | cons y tl2 =>
      rw [hfil] at huniq
      simp at huniq

/-- A rational literal in reduced constructor form (so that concrete
runs of the embedded functions evaluate by kernel reduction). -/
def ratq (n : Int) (d : Nat) (hd : d ≠ 0) (hc : n.natAbs.Coprime d) : ℚ :=
  ⟨n, d, hd, hc⟩

/-- 0.05, the default alpha. -/
def qAlpha : ℚ := ratq 1 20 (by norm_num) (by norm_num)

/-- The p-value of the single comparison in the CLD soundness witness. -/
def c1wp : ℚ := ratq 1 2 (by norm_num) (by norm_num)

/-- Comparison set for the CLD soundness witness: one non-significant
pair. -/
def c1wComparisons : List Comparison := [⟨"A", "B", c1wp⟩]

/-- Witness for `cld_soundness` at a concrete run: groups `A` and `B`
share the letter `a` and their single comparison indeed has p ≥ alpha. -/
theorem cld_soundness_witness : qAlpha ≤ c1wp :=
  cld_soundness c1wComparisons qAlpha ["A", "B"] [("A", "a"), ("B", "a")]
    "A" "B" "a" "a" 'a' (by decide) (by decide) (by decide) (by decide)
    (by decide) (by decide) (by decide) ⟨"A", "B", c1wp⟩ (by decide) (by decide)

/-- Claim C10: `assign_letters` produces a CLD exactly when at most 26
distinct compatibility sets exist; with 27 or more distinct sets the
letter lookup indexes past the lowercase alphabet and the computation
fails with an index error (`none`). -/
theorem assign_letters_alphabet_bound (cs : List Comparison) (alpha : ℚ)
    (order : List String) :
    (assign_letters cs alpha order).isSome = true ↔
      (dedupSets (order.map (buildSet cs alpha order))).length ≤ 26 := by
  simp only [assign_letters]
  set sets := dedupSets (order.map (buildSet cs alpha order)) with hsets
  constructor
  · intro hsome
    by_contra hgt
    have h26 : 26 < sets.length := Nat.lt_of_not_le hgt
    have hmem : sets.get ⟨26, h26⟩ ∈ sets := List.get_mem ..
    have hdraft := mem_dedupSets _ _ hmem
    rcases List.mem_map.mp hdraft with ⟨g, hgorder, hbs⟩
    have hgin : g ∈ sets.get ⟨26, h26⟩ := by
      rw [← hbs]
      exact seed_mem_buildSet ..
    have haux : lettersForAux g 0 sets = none :=
      lettersForAux_none g sets 0 26 h26 hgin
        (by rw [Nat.zero_add]; exact letterAt_ge 26 (Nat.le_refl 26))
    have hnone : optionMapAll
        (fun g => (lettersFor sets g).map (fun s => (g, s))) order = none := by
      apply optionMapAll_none _ order g hgorder
      unfold lettersFor
      rw [haux]
      rfl
    rw [hnone] at hsome
    exact Bool.noConfusion hsome
  · intro hle
    apply optionMapAll_some
    intro g hg
    unfold lettersFor
    have hs : (lettersForAux g 0 sets).isSome :=
      lettersForAux_some g sets 0 (by omega)
    cases haux : lettersForAux g 0 sets with
    | none =>
      rw [haux] at hs
      exact Bool.noConfusion hs
    | some out => rfl

/-- Comparison set for claim C9: `A` vs `B` and `B` vs `C` are recorded
(not significant), `A` vs `C` is never compared. -/
def c9Comparisons : List Comparison :=
  [⟨"A", "B", ratq 9 10 (by norm_num) (by norm_num)⟩,
   ⟨"B", "C", ratq 9 10 (by norm_num) (by norm_num)⟩]

/-- Claim C9: a pair of groups with no record in the comparison set is
treated as not significantly different (`is_significant` is false on an
empty match), and concretely two never-compared groups (`A` and `C`) end
up sharing a letter in the produced CLD. -/
theorem never_compared_share_letter :
    (∀ (cs : List Comparison) (a b : String) (alpha : ℚ),
        (∀ r ∈ cs, matchesPair r a b = false) →
        is_significant cs a b alpha = false) ∧
    (∀ r ∈ c9Comparisons, matchesPair r "A" "C" = false) ∧
    assign_letters c9Comparisons qAlpha ["A", "B", "C"] =
      some [("A", "a"), ("B", "a"), ("C", "a")] := by
  refine ⟨?_, by decide, by decide⟩
  intro cs a b alpha hnone
  unfold is_significant
  have hfil : cs.filter (fun r => matchesPair r a b) = [] := by
    rw [List.filter_eq_nil_iff]
    intro r hr
    rw [hnone r hr]
    exact Bool.noConfusion
  rw [hfil]
  rfl

/-- Witness for `never_compared_share_letter`: the general part applied to
the concrete comparison set and the never-compared pair. -/
theorem never_compared_share_letter_witness :
    is_significant c9Comparisons "A" "C" qAlpha = false :=
  never_compared_share_letter.1 c9Comparisons "A" "C" qAlpha (by decide)

/-- From a false `any` to pointwise falsity. -/
theorem any_eq_false_mem {p : String → Bool} {s : List String}
    (h : s.any p = false) : ∀ x ∈ s, p x = false := by
  intro x hx
  cases hpx : p x
  · rfl
  · have hany : s.any p = true := List.any_eq_true.mpr ⟨x, hx, hpx⟩
    rw [hany] at h
    exact Bool.noConfusion h

/-- From pointwise falsity to a false `any`. -/
theorem any_eq_false_of_mem {p : String → Bool} {s : List String}
    (h : ∀ x ∈ s, p x = false) : s.any p = false := by
  cases hany : s.any p
  · rfl
  · rcases List.any_eq_true.mp hany with ⟨x, hx, hpx⟩
    rw [h x hx] at hpx
    exact Bool.noConfusion hpx

/-- Claim C4: both classifier variants are extensionally the spec
classifier (NaN checked first), every output is one of the five markers,
and the boundaries are strict: p = 0.05 classifies as `ns` and
p = 0.0499999 as `*`. -/
theorem significance_marker_spec :
    (∀ p : PVal, significance_marker p = classifySpec " " p) ∧
    (∀ p : PVal, significance_marker_unfold p = classifySpec "" p) ∧
    (∀ p : PVal, significance_marker p = "***" ∨ significance_marker p = "**" ∨
      significance_marker p = "*" ∨ significance_marker p = " " ∨
      significance_marker p = "ns") ∧
    significance_marker (some (1/20)) = "ns" ∧
    significance_marker (some (499999/10000000)) = "*" := by
  refine ⟨?_, ?_, ?_, ?_, ?_⟩
  · intro p
    cases p with
    | none => rfl
    | some q => simp [significance_marker, classifySpec, pLtB, isNaN]
  · intro p
    cases p with
    | none => rfl
    | some q => simp [significance_marker_unfold, classifySpec, pLtB, isNaN]
  · intro p
    unfold significance_marker
    split
    · left; rfl
    · split
      · right; left; rfl
      · split
        · right; right; left; rfl
        · split
          · right; right; right; left; rfl
          · right; right; right; right; rfl
  · simp only [significance_marker, pLtB, isNaN]
    norm_num
  · simp only [significance_marker, pLtB, isNaN]
    norm_num

/-- Modelled from the claim (and spec section 4.3 step 2): the
compatibility set for the group at position `i` of `group_order`, built by
iterating only over the candidate groups subsequent to it. -/
def buildSet_subsequentSpec (cs : List Comparison) (alpha : ℚ)
    (order : List String) (i : Nat) : List String :=
  (order.drop (i + 1)).foldl
    (fun s h =>
      if !(is_significant cs (order.getD i "") h alpha
          || s.any (fun x => is_significant cs x h alpha))
      then pyInsert h s else s)
    [order.getD i ""]

/-- Counterexample to claim C3: with an empty comparison set and
`group_order = [A, B]`, the source builds the set for `B` (position 1) by
scanning the whole order, so it contains `A`, a group that precedes `B`;
the claimed subsequent-only scan yields `{B}` alone. -/
theorem buildSet_scans_all_counterexample :
    "A" ∈ buildSet [] qAlpha ["A", "B"] "B" ∧
    "A" ∉ buildSet_subsequentSpec [] qAlpha ["A", "B"] 1 := by
  decide

/-- The greedy extension step, phrased as the amended claim words it: a
candidate is added exactly when it differs from the seed and is not
significantly different from the seed nor from any group already in the
set. -/
def extendCompat (cs : List Comparison) (alpha : ℚ) (g : String) :
    List String → List String → List String
  | s, [] => s
  | s, h :: rest =>
    if g ≠ h ∧ is_significant cs g h alpha = false ∧
        (∀ x ∈ s, is_significant cs x h alpha = false)
    then extendCompat cs alpha g (pyInsert h s) rest
    else extendCompat cs alpha g s rest

/-- The `buildSet` fold agrees with `extendCompat` from any accumulator. -/
theorem buildSet_foldl_extendCompat (cs : List Comparison) (alpha : ℚ)
    (g : String) :
    ∀ (order : List String) (s : List String),
      List.foldl
        (fun s l2 =>
          if g != l2 && !(is_significant cs g l2 alpha
              || s.any (fun x => is_significant cs x l2 alpha))
          then pyInsert l2 s else s) s order
      = extendCompat cs alpha g s order := by
  intro order
  induction order with
  | nil => intro s; rfl
  | cons h rest ih =>
    intro s
    rw [List.foldl_cons]
    have hrhs : extendCompat cs alpha g s (h :: rest) =
        if g ≠ h ∧ is_significant cs g h alpha = false ∧
            (∀ x ∈ s, is_significant cs x h alpha = false)
        then extendCompat cs alpha g (pyInsert h s) rest
        else extendCompat cs alpha g s rest := rfl
    rw [hrhs]
    by_cases hp : g ≠ h ∧ is_significant cs g h alpha = false ∧
        (∀ x ∈ s, is_significant cs x h alpha = false)
    · have hb : (g != h && !(is_significant cs g h alpha
          || s.any (fun x => is_significant cs x h alpha))) = true := by
        obtain ⟨h1, h2, h3⟩ := hp
        simp only [Bool.and_eq_true, bne_iff_ne, Bool.not_eq_true',
          Bool.or_eq_false_iff]
        exact ⟨h1, h2, any_eq_false_of_mem h3⟩
      rw [if_pos hb, if_pos hp]
      exact ih (pyInsert h s)
    · have hb : (g != h && !(is_significant cs g h alpha
          || s.any (fun x => is_significant cs x h alpha))) = false := by
        cases hbv : (g != h && !(is_significant cs g h alpha
            || s.any (fun x => is_significant cs x h alpha)))
        · rfl
        · exfalso
          apply hp
          simp only [Bool.and_eq_true, bne_iff_ne, Bool.not_eq_true',
            Bool.or_eq_false_iff] at hbv
          exact ⟨hbv.1, hbv.2.1, any_eq_false_mem hbv.2.2⟩
      rw [if_neg (show ¬ (g != h && !(is_significant cs g h alpha
          || s.any (fun x => is_significant cs x h alpha))) = true by
            rw [hb]; exact Bool.noConfusion), if_neg hp]
      exact ih s

/-- Claim C3 amended: the compatibility set for group `g` is built by
starting from the singleton of `g` and iterating over ALL groups of
`group_order` in order (not only the subsequent ones), adding a candidate
`h` exactly when `h` differs from `g`, is not significantly different from
`g`, and is not significantly different from every group already in the
set. -/
theorem buildSet_greedy_extension (cs : List Comparison) (alpha : ℚ)
    (order : List String) (g : String) :
    buildSet cs alpha order g = extendCompat cs alpha g [g] order := by
  unfold buildSet
  exact buildSet_foldl_extendCompat cs alpha g order [g]

/-- Shorthand for a concrete (non-NaN) p-value in reduced form. -/
def pv (n : Int) (d : Nat) (hd : d ≠ 0) (hc : n.natAbs.Coprime d) : PVal :=
  some (ratq n d hd hc)

/-- Modelled from the spec wording of the claim: the "top" interaction
term is the highest-order one, i.e. the last interaction row of the ANOVA
table (type-II tables list interaction terms in increasing order). -/
def topInteractionTerm (anovaT : List (String × PVal)) : Option (String × PVal) :=
  (anovaT.filter (fun t => isInteractionTerm t.1)).getLast?

/-- A 2x2x2 factorial dataset (levels only; responses are irrelevant to
the dispatch). -/
def c2rows : List Row :=
  [[("A", "a1"), ("B", "b1"), ("C", "c1")],
   [("A", "a1"), ("B", "b1"), ("C", "c2")],
   [("A", "a1"), ("B", "b2"), ("C", "c1")],
   [("A", "a1"), ("B", "b2"), ("C", "c2")],
   [("A", "a2"), ("B", "b1"), ("C", "c1")],
   [("A", "a2"), ("B", "b1"), ("C", "c2")],
   [("A", "a2"), ("B", "b2"), ("C", "c1")],
   [("A", "a2"), ("B", "b2"), ("C", "c2")]]

/-- Three-factor environment in which the two-way interaction `A:B` is
significant (p = 0.01) while the top (three-way) interaction has
p = 0.9 > alpha; every external branch succeeds. -/
def c2env : FatEnv Nat Nat where
  anovaT :=
    [("C(A)", pv 3 10 (by norm_num) (by norm_num)),
     ("C(B)", pv 1 5 (by norm_num) (by norm_num)),
     ("C(C)", pv 2 5 (by norm_num) (by norm_num)),
     ("C(A):C(B)", pv 1 100 (by norm_num) (by norm_num)),
     ("C(A):C(C)", pv 9 10 (by norm_num) (by norm_num)),
     ("C(B):C(C)", pv 4 5 (by norm_num) (by norm_num)),
     ("C(A):C(B):C(C)", pv 9 10 (by norm_num) (by norm_num)),
     ("Residual", none)]
  factors := ["A", "B", "C"]
  data := c2rows
  mainOut := fun _ => .ok 0
  subOut := fun _ _ _ => .ok 0

/-- Counterexample to claim C2: in `c2env` the top interaction term has
p = 0.9, which exceeds alpha = 0.05, yet `unfold_interactions` populates
`interactions` and leaves `main_effects` empty, because the branch is
chosen by whether ANY interaction term is significant, not the top one. -/
theorem unfold_top_term_counterexample :
    topInteractionTerm c2env.anovaT =
      some ("C(A):C(B):C(C)", pv 9 10 (by norm_num) (by norm_num)) ∧
    pLeB (pv 9 10 (by norm_num) (by norm_num)) qAlpha = false ∧
    (unfold_interactions c2env qAlpha false "tukey").1.main_effects = [] ∧
    (unfold_interactions c2env qAlpha false "tukey").1.interactions ≠ [] := by
  refine ⟨by decide, by decide, by decide, by decide⟩

/-- Claim C2 amended: the result of `unfold_interactions` always carries
the input ANOVA table under `anova`; the main-effects branch is taken
exactly when NO interaction term has p ≤ alpha (a NaN p counts as not
significant), the unfolding branch otherwise, so the mapping of the
branch not taken is always empty (at most one of the two is populated).
The same dichotomy holds for the split-plot version whenever it returns
normally. -/
theorem unfold_dispatch (μ σ : Type) (env : FatEnv μ σ) (alpha : ℚ)
    (pr : Bool) (ph : String) :
    ((unfold_interactions env alpha pr ph).1.anovaT = env.anovaT) ∧
    ((significantInteractions env.anovaT alpha).isEmpty = true →
      (unfold_interactions env alpha pr ph).1.interactions = []) ∧
    ((significantInteractions env.anovaT alpha).isEmpty = false →
      (unfold_interactions env alpha pr ph).1.main_effects = []) ∧
    (∀ (spe : SpEnv μ σ) (res : UnfoldResult μ σ) (msgs : List String),
      sp_unfold spe alpha pr = .ok (res, msgs) →
        res.anovaT = spe.anovaT ∧
        ((significantInteractions spe.anovaT alpha).isEmpty = true →
          res.interactions = []) ∧
        ((significantInteractions spe.anovaT alpha).isEmpty = false →
          res.main_effects = [])) := by
  refine ⟨?_, ?_, ?_, ?_⟩
  · unfold unfold_interactions
    by_cases hs : (significantInteractions env.anovaT alpha).isEmpty = true
    · rw [if_pos hs]
    · rw [if_neg hs]
  · intro hs
    unfold unfold_interactions
    rw [if_pos hs]
  · intro hs
    unfold unfold_interactions
    rw [if_neg (by rw [hs]; exact Bool.noConfusion)]
  · intro spe res msgs hok
    unfold sp_unfold at hok
    by_cases hs : (significantInteractions spe.anovaT alpha).isEmpty = true
    · rw [if_pos hs] at hok
      have hres := (Except.ok.injEq .. |>.mp hok)
      have hres1 := (Prod.mk.injEq .. |>.mp hres).1
      refine ⟨?_, fun _ => ?_, fun hfalse => ?_⟩
      · rw [← hres1]
      · rw [← hres1]
      · rw [hs] at hfalse
        exact Bool.noConfusion hfalse
    · rw [if_neg hs] at hok
      cases haux : spInterAux pr spe.subOut
          (fun level => spe.subplot ++ " within " ++ spe.main_plot ++ "=" ++ level)
          (sortedLevels spe.data spe.main_plot) ([], []) none with
      | error e =>
        rw [haux] at hok
        exact Except.noConfusion hok
      | ok acc =>
        rw [haux] at hok
        have hres := (Except.ok.injEq .. |>.mp hok)
        have hres1 := (Prod.mk.injEq .. |>.mp hres).1
        refine ⟨?_, fun htrue => ?_, fun _ => ?_⟩
        · rw [← hres1]
        · exact absurd htrue hs
        · rw [← hres1]

/-- A small split-plot environment with a significant interaction and
succeeding branches. -/
def spEnvW : SpEnv Nat Nat where
  anovaT :=
    [("C(M)", pv 1 5 (by norm_num) (by norm_num)),
     ("C(S)", pv 1 5 (by norm_num) (by norm_num)),
     ("C(M):C(S)", pv 1 100 (by norm_num) (by norm_num)),
     ("Residual", none)]
  main_plot := "M"
  subplot := "S"
  data :=
    [[("M", "m1"), ("S", "s1")], [("M", "m1"), ("S", "s2")],
     [("M", "m2"), ("S", "s1")], [("M", "m2"), ("S", "s2")]]
  mainOut := fun _ => .ok 0
  subOut := fun _ => .ok 0

/-- The result `sp_unfold` produces on `spEnvW`. -/
def spResW : UnfoldResult Nat Nat where
  anovaT := spEnvW.anovaT
  main_effects := []
  interactions := [("S within M=m1", 0), ("S within M=m2", 0)]

/-- Witness for `unfold_dispatch`: at the concrete environment `c2env`
(interactions branch) and the concrete split-plot run `spEnvW`, the
discharged dichotomy facts. -/
theorem unfold_dispatch_witness :
    ((unfold_interactions c2env qAlpha false "tukey").1.main_effects =
      ([] : List (String × Nat))) ∧
    spResW.anovaT = spEnvW.anovaT :=
  ⟨(unfold_dispatch Nat Nat c2env qAlpha false "tukey").2.2.1 (by decide),
   ((unfold_dispatch Nat Nat c2env qAlpha false "tukey").2.2.2 spEnvW spResW []
      rfl).1⟩

/-- The `main_effects` entries the loop records: one per factor whose
post-hoc pipeline succeeded, in factor order. -/
def okEntries (mainOut : String → Except String μ) (fs : List String) :
    List (String × μ) :=
  fs.filterMap (fun f =>
    match mainOut f with
    | .ok o => some (f, o)
    | .error _ => none)

/-- The error lines the main-effects loop prints: one per failing factor,
carrying that factor in the message. -/
def errReports (errMsgOf : String → String → String)
    (mainOut : String → Except String μ) (fs : List String) : List String :=
  fs.filterMap (fun f =>
    match mainOut f with
    | .ok _ => none
    | .error e => some (errMsgOf f e))

/-- The error lines the interaction loop prints: one per guard-passing
branch whose sub-analysis failed, carrying the branch key (inner factor,
outer factor and level) in the message. -/
def interErrReports (subOut : String → String → String → Except String σ)
    (data : List Row) (trips : List (String × String × String)) : List String :=
  trips.filterMap (fun t =>
    if guardPass data t then
      match subOut t.1 t.2.1 t.2.2 with
      | .ok _ => none
      | .error e => some (interErrMsg t.1 t.2.1 t.2.2 e)
    else none)

/-- Full characterization of the main-effects loop: entries are exactly
the successful factors, the log exactly the failing ones (and empty when
printing is off). -/
theorem mainLoopAux_characterization (pr : Bool)
    (errMsgOf : String → String → String) (mainOut : String → Except String μ) :
    ∀ (fs : List String) (acc : List (String × μ) × List String),
      mainLoopAux pr errMsgOf mainOut acc fs =
        (acc.1 ++ okEntries mainOut fs,
         acc.2 ++ if pr then errReports errMsgOf mainOut fs else []) := by
  intro fs
  induction fs with
  | nil =>
    intro acc
    simp [mainLoopAux, okEntries, errReports]
  | cons f rest ih =>
    intro acc
    cases hf : mainOut f with
    | ok o =>
      simp only [mainLoopAux, hf, ih, okEntries, errReports,
        List.filterMap_cons]
      cases pr <;> simp
    | error e =>
      simp only [mainLoopAux, hf, ih, okEntries, errReports,
        List.filterMap_cons]
      cases pr <;> simp

/-- The interaction loop's error log: exactly one contextful line per
guard-passing branch whose sub-analysis raised (empty with printing
off). -/
theorem interLoopAux_msgs (pr : Bool)
    (subOut : String → String → String → Except String σ) (data : List Row) :
    ∀ (trips : List (String × String × String))
      (acc : List (String × σ) × List String),
      (interLoopAux pr subOut data acc trips).2 =
        acc.2 ++ if pr then interErrReports subOut data trips else [] := by
  intro trips
  induction trips with
  | nil =>
    intro acc
    simp [interLoopAux, interErrReports]
  | cons t rest ih =>
    intro acc
    by_cases hg : nuniqueCol (data.filter (fun r => colVal r t.2.1 == t.2.2)) t.1 ≤ 1
    · have hgp : guardPass data t = false := by
        unfold guardPass
        simpa using hg
      simp only [interLoopAux, if_pos hg, ih, interErrReports,
        List.filterMap_cons, hgp]
      simp
    · have hgp : guardPass data t = true := by
        unfold guardPass
        simpa using Nat.lt_of_not_le hg
      cases hf : subOut t.1 t.2.1 t.2.2 with
      | ok o =>
        simp only [interLoopAux, if_neg hg, hf, ih, interErrReports,
          List.filterMap_cons, hgp]
        simp
      | error e =>
        simp only [interLoopAux, if_neg hg, hf, ih, interErrReports,
          List.filterMap_cons, hgp]
        cases pr <;> simp

/-- The interaction entries are insensitive to failing or guarded
branches: restricting the triples to the guard-passing, succeeding ones
(and forgetting the message state) leaves `interactions` unchanged —
sibling branches run no matter which branches fail. -/
theorem interLoopAux_entries (pr pr2 : Bool)
    (subOut : String → String → String → Except String σ) (data : List Row) :
    ∀ (trips : List (String × String × String)) (acc1 : List (String × σ))
      (m m2 : List String),
      (interLoopAux pr subOut data (acc1, m) trips).1 =
        (interLoopAux pr2 subOut data (acc1, m2)
          (trips.filter (fun t =>
            guardPass data t && exceptIsOk (subOut t.1 t.2.1 t.2.2)))).1 := by
  intro trips
  induction trips with
  | nil => intro acc1 m m2; rfl
  | cons t rest ih =>
    intro acc1 m m2
    by_cases hg : nuniqueCol (data.filter (fun r => colVal r t.2.1 == t.2.2)) t.1 ≤ 1
    · have hgp : guardPass data t = false := by
        unfold guardPass
        simpa using hg
      simp only [List.filter_cons, hgp, Bool.false_and, interLoopAux, if_pos hg]
      exact ih acc1 m m2
    · have hgp : guardPass data t = true := by
        unfold guardPass
        simpa using Nat.lt_of_not_le hg
      cases hf : subOut t.1 t.2.1 t.2.2 with
      | ok o =>
        have hok : exceptIsOk (subOut t.1 t.2.1 t.2.2) = true := by
          rw [hf]; rfl
        simp only [List.filter_cons, hgp, hok, Bool.and_self, interLoopAux,
          if_neg hg, hf]
        exact ih _ m m2
      | error e =>
        have hok : exceptIsOk (subOut t.1 t.2.1 t.2.2) = false := by
          rw [hf]; rfl
        simp only [List.filter_cons, hgp, hok, Bool.and_false, interLoopAux,
          if_neg hg, hf]
        exact ih acc1 _ m2

/-- Claim C6 amended: in the factorial `unfold_interactions` every
per-branch exception is caught at its branch boundary — the function
always returns, the entries of the taken branch are exactly those of the
successful sibling branches (failing branches only disappear, they abort
nothing), and the failing branches are reported via messages carrying the
factor (and level) context built by `fatMainErrMsg` / `interErrMsg` — but
only when `print_results` is true (the default); with `print_results`
false the exceptions are silently discarded. -/
theorem unfold_branch_isolation (μ σ : Type) (env : FatEnv μ σ) (alpha : ℚ)
    (ph : String) (pr : Bool) :
    ((unfold_interactions env alpha pr ph).2 =
      if (significantInteractions env.anovaT alpha).isEmpty then
        (if pr then errReports (fatMainErrMsg ph) env.mainOut env.factors else [])
      else
        (if pr then
          interErrReports env.subOut env.data
            (branchTriples (significantInteractions env.anovaT alpha) env.data)
        else [])) ∧
    ((unfold_interactions env alpha pr ph).1.main_effects =
      if (significantInteractions env.anovaT alpha).isEmpty then
        okEntries env.mainOut env.factors
      else []) ∧
    ((unfold_interactions env alpha pr ph).1.interactions =
      if (significantInteractions env.anovaT alpha).isEmpty then []
      else
        (interLoop pr env.subOut env.data
          ((branchTriples (significantInteractions env.anovaT alpha) env.data).filter
            (fun t => guardPass env.data t
              && exceptIsOk (env.subOut t.1 t.2.1 t.2.2)))).1) := by
  unfold unfold_interactions
  by_cases hs : (significantInteractions env.anovaT alpha).isEmpty = true
  · rw [if_pos hs]
    unfold mainLoop
    rw [mainLoopAux_characterization]
    refine ⟨?_, ?_, ?_⟩
    · rw [if_pos hs]
      simp
    · rw [if_pos hs]
      simp
    · rw [if_pos hs]
  · rw [if_neg hs]
    have hs2 : (significantInteractions env.anovaT alpha).isEmpty = false := by
      cases hv : (significantInteractions env.anovaT alpha).isEmpty
      · rfl
      · exact absurd hv hs
    unfold interLoop
    refine ⟨?_, ?_, ?_⟩
    · rw [interLoopAux_msgs, hs2, if_neg Bool.false_ne_true]
      simp
    · rw [hs2, if_neg Bool.false_ne_true]
    · rw [hs2, if_neg Bool.false_ne_true]
      exact interLoopAux_entries pr pr env.subOut env.data _ [] [] []

/-- Environment for the C6 counterexample: same as `c2env` but the branch
unfolding `A` within `B = b1` raises. -/
def c6env : FatEnv Nat Nat where
  anovaT := c2env.anovaT
  factors := c2env.factors
  data := c2env.data
  mainOut := fun _ => .ok 0
  subOut := fun f1 _ level =>
    if f1 == "A" && level == "b1" then .error "boom" else .ok 0

/-- Counterexample to claim C6 as stated: the branch `A within B=b1` is
enumerated, passes the insufficient-data guard and raises, yet with
`print_results = False` the returned error log is empty — the exception
is caught and the siblings still run, but nothing is reported. -/
theorem unfold_silent_swallow_counterexample :
    (("A", "B", "b1") ∈
      branchTriples (significantInteractions c6env.anovaT qAlpha) c6env.data) ∧
    guardPass c6env.data ("A", "B", "b1") = true ∧
    c6env.subOut "A" "B" "b1" = .error "boom" ∧
    (unfold_interactions c6env qAlpha false "tukey").2 = [] ∧
    (unfold_interactions c6env qAlpha false "tukey").1.interactions.map
      Prod.fst = ["A within B=b2", "B within A=a1", "B within A=a2"] := by
  refine ⟨by decide, by decide, rfl, by decide, by decide⟩

/-- Dict assignment introduces no key other than the assigned one. -/
theorem dictInsert_keys (l : List (String × σ)) (k : String) (v : σ)
    (k2 : String) (h2 : k2 ∉ l.map Prod.fst) (hne : k2 ≠ k) :
    k2 ∉ (dictInsert l k v).map Prod.fst := by
  unfold dictInsert
  split
  · intro hmem
    rcases List.mem_map.mp hmem with ⟨p, hp, hkey⟩
    rcases List.mem_map.mp hp with ⟨p0, hp0, hpeq⟩
    by_cases hpk : p0.1 == k
    · rw [if_pos hpk] at hpeq
      rw [← hpeq] at hkey
      exact hne hkey.symm
    · rw [if_neg hpk] at hpeq
      rw [← hpeq] at hkey
      exact h2 (List.mem_map.mpr ⟨p0, hp0, hkey⟩)
  · intro hmem
    rw [List.map_append] at hmem
    rcases List.mem_append.mp hmem with hl | hr
    · exact h2 hl
    · exact hne (List.mem_singleton.mp hr)

/-- The one-step unfolding of the interaction loop. -/
theorem interLoopAux_cons (pr : Bool)
    (subOut : String → String → String → Except String σ) (data : List Row)
    (acc : List (String × σ) × List String) (t : String × String × String)
    (rest : List (String × String × String)) :
    interLoopAux pr subOut data acc (t :: rest) =
      if nuniqueCol (data.filter (fun r => colVal r t.2.1 == t.2.2)) t.1 ≤ 1 then
        interLoopAux pr subOut data acc rest
      else
        match subOut t.1 t.2.1 t.2.2 with
        | .ok out =>
          interLoopAux pr subOut data
            (dictInsert acc.1 (mkKey t.1 t.2.1 t.2.2) out, acc.2) rest
        | .error e =>
          interLoopAux pr subOut data
            (acc.1, acc.2 ++ if pr then [interErrMsg t.1 t.2.1 t.2.2 e] else [])
            rest := rfl

/-- If no guard-passing branch carries the key, the interaction loop never
records it. -/
theorem interLoopAux_key_absent (pr : Bool)
    (subOut : String → String → String → Except String σ) (data : List Row)
    (key : String) :
    ∀ (trips : List (String × String × String))
      (acc : List (String × σ) × List String),
      key ∉ acc.1.map Prod.fst →
      (∀ t ∈ trips, guardPass data t = true → mkKey t.1 t.2.1 t.2.2 ≠ key) →
      key ∉ (interLoopAux pr subOut data acc trips).1.map Prod.fst := by
  intro trips
  induction trips with
  | nil => intro acc hacc _; exact hacc
  | cons t rest ih =>
    intro acc hacc htrips
    rw [interLoopAux_cons]
    by_cases hg : nuniqueCol (data.filter (fun r => colVal r t.2.1 == t.2.2)) t.1 ≤ 1
    · rw [if_pos hg]
      exact ih acc hacc (fun t2 ht2 => htrips t2 (List.mem_cons_of_mem t ht2))
    · have hgp : guardPass data t = true := by
        unfold guardPass
        simpa using Nat.lt_of_not_le hg
      have hkne : mkKey t.1 t.2.1 t.2.2 ≠ key :=
        htrips t (List.mem_cons_self t rest) hgp
      rw [if_neg hg]
      cases hf : subOut t.1 t.2.1 t.2.2 with
      | ok o =>
        apply ih _ (dictInsert_keys acc.1 _ o key hacc (fun h => hkne h.symm))
        exact fun t2 ht2 => htrips t2 (List.mem_cons_of_mem t ht2)
      | error e =>
        exact ih _ hacc (fun t2 ht2 => htrips t2 (List.mem_cons_of_mem t ht2))

/-- Dropping a branch whose guard always fails does not change the loop at
all: the branch is skipped silently. -/
theorem interLoopAux_skip_guarded (pr : Bool)
    (subOut : String → String → String → Except String σ) (data : List Row)
    (bad : String × String × String)
    (hbad : nuniqueCol (data.filter (fun r => colVal r bad.2.1 == bad.2.2))
      bad.1 ≤ 1) :
    ∀ (trips : List (String × String × String))
      (acc : List (String × σ) × List String),
      interLoopAux pr subOut data acc (trips.filter (fun t => t ≠ bad)) =
        interLoopAux pr subOut data acc trips := by
  intro trips
  induction trips with
  | nil => intro acc; rfl
  | cons t rest ih =>
    intro acc
    by_cases hteq : t = bad
    · have hfil : (t :: rest).filter (fun t => t ≠ bad) =
          rest.filter (fun t => t ≠ bad) := by
        rw [List.filter_cons, if_neg (by simp [hteq])]
      rw [hfil, ih acc, interLoopAux_cons, if_pos (by rw [hteq]; exact hbad)]
    · have hfil : (t :: rest).filter (fun t => t ≠ bad) =
          t :: rest.filter (fun t => t ≠ bad) := by
        rw [List.filter_cons, if_pos (by simp [hteq])]
      rw [hfil, interLoopAux_cons, interLoopAux_cons]
      by_cases hg : nuniqueCol (data.filter (fun r => colVal r t.2.1 == t.2.2)) t.1 ≤ 1
      · rw [if_pos hg, if_pos hg]
        exact ih acc
      · rw [if_neg hg, if_neg hg]
        cases hf : subOut t.1 t.2.1 t.2.2 with
        | ok o => exact ih _
        | error e => exact ih _

/-- Claim C5: a branch whose filtered subset leaves the inner factor with
fewer than two distinct levels is skipped silently: its key never appears
in the `interactions` mapping (the key-injectivity hypothesis rules out an
unrelated branch whose factor/level strings happen to render the same
key), and the whole unfolding is literally unchanged by deleting that
branch from the branch list — in particular no exception arises from it
and every other branch still runs. -/
theorem unfold_skips_small_subsets (μ σ : Type) (env : FatEnv μ σ)
    (alpha : ℚ) (pr : Bool) (ph : String) (f1 f2 level : String)
    (hguard : nuniqueCol (env.data.filter (fun r => colVal r f2 == level)) f1 ≤ 1)
    (hkey : ∀ t ∈ branchTriples (significantInteractions env.anovaT alpha)
        env.data,
      mkKey t.1 t.2.1 t.2.2 = mkKey f1 f2 level → t = (f1, f2, level)) :
    mkKey f1 f2 level ∉
      ((unfold_interactions env alpha pr ph).1.interactions.map Prod.fst) ∧
    interLoop pr env.subOut env.data
        ((branchTriples (significantInteractions env.anovaT alpha)
          env.data).filter (fun t => t ≠ (f1, f2, level))) =
      interLoop pr env.subOut env.data
        (branchTriples (significantInteractions env.anovaT alpha) env.data) := by
  constructor
  · unfold unfold_interactions
    by_cases hs : (significantInteractions env.anovaT alpha).isEmpty = true
    · rw [if_pos hs]
      simp
    · rw [if_neg hs]
      unfold interLoop
      apply interLoopAux_key_absent
      · simp
      · intro t ht hgp heq
        have hteq := hkey t ht heq
        rw [hteq] at hgp
        unfold guardPass at hgp
        simp only [decide_eq_true_eq] at hgp
        omega
  · exact interLoopAux_skip_guarded pr env.subOut env.data (f1, f2, level)
      hguard _ ([], [])

/-- A two-factor dataset in which the subset `B = b1` carries a single
level of `A`. -/
def c5rows : List Row :=
  [[("A", "a1"), ("B", "b1")], [("A", "a1"), ("B", "b1")],
   [("A", "a1"), ("B", "b2")], [("A", "a2"), ("B", "b2")]]

/-- Environment for the C5 witness: significant interaction, the branch
`A within B=b1` guarded out by the insufficient-data check. -/
def c5env : FatEnv Nat Nat where
  anovaT :=
    [("C(A)", pv 1 2 (by norm_num) (by norm_num)),
     ("C(B)", pv 1 2 (by norm_num) (by norm_num)),
     ("C(A):C(B)", pv 1 100 (by norm_num) (by norm_num)),
     ("Residual", none)]
  factors := ["A", "B"]
  data := c5rows
  mainOut := fun _ => .ok 0
  subOut := fun _ _ _ => .ok 0

/-- Witness for `unfold_skips_small_subsets` at `c5env` and the branch
`A within B=b1`. -/
theorem unfold_skips_small_subsets_witness :
    mkKey "A" "B" "b1" ∉
      ((unfold_interactions c5env qAlpha true "tukey").1.interactions.map
        Prod.fst) ∧
    interLoop true c5env.subOut c5env.data
        ((branchTriples (significantInteractions c5env.anovaT qAlpha)
          c5env.data).filter (fun t => t ≠ ("A", "B", "b1"))) =
      interLoop true c5env.subOut c5env.data
        (branchTriples (significantInteractions c5env.anovaT qAlpha)
          c5env.data) :=
  unfold_skips_small_subsets Nat Nat c5env qAlpha true "tukey" "A" "B" "b1"
    (by decide) (by decide)

/-- Claim C7 amended: `TukeyHSD.run` performs no validation of the number
of groups or of group sizes — it is exactly the external studentized-range
call on the selected columns, with the result columns relabelled; it
succeeds precisely when the external procedure does (the repository
defines no `InsufficientDataError` anywhere). -/
theorem tukey_run_delegates
    (ext : List String → List String → Except String (List (List String)))
    (data : List Row) (vcol gcol : String) :
    tukey_run ext data vcol gcol =
      (ext (data.map (fun r => colVal r vcol))
        (data.map (fun r => colVal r gcol))).map
        (fun rows => (tukeyColumns, rows)) := by
  unfold tukey_run
  cases h : ext (data.map (fun r => colVal r vcol))
      (data.map (fun r => colVal r gcol)) with
  | ok rows => rfl
  | error e => rfl

/-- A dataset whose group `A` has a single observation (group `B` has
three). -/
def c7data : List Row :=
  [[("g", "A"), ("y", "1")], [("g", "B"), ("y", "2")],
   [("g", "B"), ("y", "3")], [("g", "B"), ("y", "4")]]

/-- The external `pairwise_tukeyhsd` on `c7data`: with group sizes 1 and 3
the pooled variance still has 2 degrees of freedom, so the procedure
computes its adjusted p-value and returns a one-row table — it does not
raise. -/
def c7ext : List String → List String → Except String (List (List String)) :=
  fun _ _ => .ok [["A", "B", "1.5", "0.5", "-1.0", "2.0", "False"]]

/-- Counterexample to claim C7: `c7data` has a group with fewer than two
observations, yet `TukeyHSD.run` — which contains no insufficient-data
check and merely forwards whatever the external procedure returns —
succeeds; nothing in the wrapper can raise an `InsufficientDataError`
(the repository never defines that exception). -/
theorem tukey_no_insufficient_data_guard :
    nuniqueCol c7data "g" = 2 ∧
    groupCount c7data "g" "A" = 1 ∧
    exceptIsOk (tukey_run c7ext c7data "y" "g") = true := by
  decide

/-- Writing at one reference leaves the frames behind other references
untouched. -/
theorem heapGet_set_ne (h : Heap) (r1 r2 : Nat) (df : DFrame)
    (hne : r2 ≠ r1) : heapGet (heapSet h r1 df) r2 = heapGet h r2 := by
  unfold heapGet heapSet List.getD
  rw [List.get?_eq_getElem?, List.get?_eq_getElem?,
    List.getElem?_set_ne (fun he => hne he.symm)]

/-- Allocating new frames at the end of the store leaves the existing
references untouched. -/
theorem heapGet_append_lt (h : Heap) (tail : List DFrame) (r : Nat)
    (hr : r < h.length) : heapGet (h ++ tail) r = heapGet h r := by
  unfold heapGet List.getD
  rw [List.get?_eq_getElem?, List.get?_eq_getElem?, List.getElem?_append,
    if_pos hr]

/-- The factorial sanitization step only ever writes through the instance
reference. -/
theorem factorial_safe_factor_preserves (h : Heap) (sr r : Nat) (f : String)
    (hne : r ≠ sr) :
    heapGet (factorial_safe_factor h sr f).1 r = heapGet h r := by
  unfold factorial_safe_factor
  split
  · exact heapGet_set_ne h sr r _ hne
  · rfl

/-- The split-plot sanitization step only ever writes through the instance
reference. -/
theorem splitplot_safe_factor_preserves (h : Heap) (sr r : Nat) (f : String)
    (hne : r ≠ sr) :
    heapGet (splitplot_safe_factor h sr f).1 r = heapGet h r := by
  unfold splitplot_safe_factor
  split
  · rfl
  · split
    · split
      · exact heapGet_set_ne h sr r _ hne
      · rfl
    · rfl

/-- The factorial sanitization loop only ever writes through the instance
reference. -/
theorem factorial_fold_preserves (sr r : Nat) (hne : r ≠ sr) :
    ∀ (factors : List String) (acc : Heap × List String),
      heapGet (factors.foldl
        (fun (acc : Heap × List String) f =>
          ((factorial_safe_factor acc.1 sr f).1,
           acc.2 ++ [(factorial_safe_factor acc.1 sr f).2])) acc).1 r =
      heapGet acc.1 r := by
  intro factors
  induction factors with
  | nil => intro acc; rfl
  | cons f rest ih =>
    intro acc
    rw [List.foldl_cons, ih]
    exact factorial_safe_factor_preserves acc.1 sr r f hne

/-- Counterexample to claim C8: the shared base constructor
(`ExperimentalDesign.__init__`, used unchanged by CRD, RCBD and the Latin
square) stores the caller's reference itself — the returned heap is
unchanged (nothing was copied) and the instance reference IS the caller's
reference, so a column rename performed through the instance would be
visible through the caller's reference. -/
theorem design_init_aliases_counterexample :
    experimentalDesign_init [["C", "y"]] 0 = ([["C", "y"]], 0) ∧
    heapGet
      (heapSet (experimentalDesign_init [["C", "y"]] 0).1
        (experimentalDesign_init [["C", "y"]] 0).2
        (renameCol
          (heapGet (experimentalDesign_init [["C", "y"]] 0).1
            (experimentalDesign_init [["C", "y"]] 0).2) "C" "C_")) 0 ≠
      heapGet [["C", "y"]] 0 := by
  refine ⟨rfl, by decide⟩

/-- Claim C8 amended: the factorial and split-plot constructors copy the
dataset before sanitizing factor names, so the caller's frame is never
modified and the instance owns a fresh reference; the base constructor
shared by CRD, RCBD and the Latin square stores the caller's reference
without copying (those designs perform no renaming). -/
theorem copy_on_construct (h : Heap) (r : Nat) (factors : List String)
    (mp sp : String) (bl : Option String) (hr : r < h.length) :
    ((factorial_init h r factors).2.1 ≠ r ∧
      heapGet (factorial_init h r factors).1 r = heapGet h r) ∧
    ((splitplot_init h r mp sp bl).2.1 ≠ r ∧
      heapGet (splitplot_init h r mp sp bl).1 r = heapGet h r) ∧
    experimentalDesign_init h r = (h, r) := by
  have hne : r ≠ h.length := by omega
  refine ⟨⟨?_, ?_⟩, ⟨?_, ?_⟩, rfl⟩
  · exact fun he => hne he.symm
  · unfold factorial_init
    rw [factorial_fold_preserves h.length r hne factors]
    exact heapGet_append_lt h _ r hr
  · have hsr : (splitplot_init h r mp sp bl).2.1 = h.length := by
      cases bl with
      | none => rfl
      | some bl2 =>
        by_cases hbl : bl2 = ""
        · simp [splitplot_init, hbl]
        · simp [splitplot_init, hbl]
    intro he
    rw [hsr] at he
    exact hne he.symm
  · cases bl with
    | none =>
      simp only [splitplot_init]
      rw [splitplot_safe_factor_preserves _ h.length r sp hne,
        splitplot_safe_factor_preserves _ h.length r mp hne]
      exact heapGet_append_lt h _ r hr
    | some bl2 =>
      by_cases hbl : bl2 = ""
      · simp only [splitplot_init, hbl, if_pos]
        rw [splitplot_safe_factor_preserves _ h.length r sp hne,
          splitplot_safe_factor_preserves _ h.length r mp hne]
        exact heapGet_append_lt h _ r hr
      · simp only [splitplot_init, if_neg hbl]
        rw [splitplot_safe_factor_preserves _ h.length r bl2 hne,
          splitplot_safe_factor_preserves _ h.length r sp hne,
          splitplot_safe_factor_preserves _ h.length r mp hne]
        exact heapGet_append_lt h _ r hr

/-- Witness for `copy_on_construct` on a concrete two-frame store. -/
theorem copy_on_construct_witness :
    ((factorial_init [["C", "y"], ["x"]] 0 ["C"]).2.1 ≠ 0 ∧
      heapGet (factorial_init [["C", "y"], ["x"]] 0 ["C"]).1 0 =
        heapGet [["C", "y"], ["x"]] 0) ∧
    ((splitplot_init [["C", "y"], ["x"]] 0 "C" "T" none).2.1 ≠ 0 ∧
      heapGet (splitplot_init [["C", "y"], ["x"]] 0 "C" "T" none).1 0 =
        heapGet [["C", "y"], ["x"]] 0) ∧
    experimentalDesign_init [["C", "y"], ["x"]] 0 = ([["C", "y"], ["x"]], 0) :=
  copy_on_construct [["C", "y"], ["x"]] 0 ["C"] "C" "T" none (by decide)
